import Mathlib

/-! sdbusplus: subscription handle (`slot.hpp`) and native types (`message/native_types.hpp`)

A shallow embedding of the two headers.

* A raw `sd_bus_slot*` is a natural number, `0` standing for `nullptr`.
* The external transport call `sd_bus_slot_unref(p)` is observable only as an
  event: every operation returns, next to its results, the list of pointers on
  which it invoked `sd_bus_slot_unref`, in call order.
* `std::unique_ptr<sd_bus_slot, SlotDeleter>` is embedded with the behaviour the
  C++ standard gives to `reset`, `release`, move construction, move assignment
  and destruction.
* `std::string` is a Lean `String`; its comparison operators are embedded through
  `std::basic_string::compare` as the C++ standard defines it.
-/

set_option linter.dupNamespace false

namespace sdbusplus

/-! ## slot.hpp -/

namespace slot

/-- The raw handle type `using slotp_t = sd_bus_slot*`; `0` is `nullptr`. -/
abbrev slotp_t := Nat

/-- The null pointer. -/
abbrev nullptr : slotp_t := 0

namespace details

/-- The functor `SlotDeleter::operator()(slotp_t ptr)`: one call
`sd_bus_slot_unref(ptr)`. The result is the list of unref calls issued. -/
def SlotDeleter (ptr : slotp_t) : List slotp_t := [ptr]

/-- The type `details::slot = std::unique_ptr<sd_bus_slot, SlotDeleter>`: one stored
pointer. -/
structure slot where
  ptr : slotp_t
  deriving DecidableEq, Repr

/-- The call `unique_ptr::reset(p)`: store `p`, then invoke the deleter on the old
pointer when that one is not null. Returns the new object and the unref calls. -/
def slot.reset (u : slot) (p : slotp_t) : slot × List slotp_t :=
  let old_p := u.ptr
  ({ ptr := p }, if old_p ≠ nullptr then SlotDeleter old_p else [])

/-- The call `unique_ptr::release()`: returns the stored pointer and stores null;
the deleter is not invoked. Returns the pointer and the new object. -/
def slot.release (u : slot) : slotp_t × slot :=
  (u.ptr, { ptr := nullptr })

/-- The conversion `unique_ptr::operator bool`: the stored pointer is not null. -/
def slot.toBool (u : slot) : Bool :=
  u.ptr != nullptr

/-- The destructor `unique_ptr::~unique_ptr()`: invokes the deleter when the stored
pointer is not null. Returns the unref calls. -/
def slot.dtor (u : slot) : List slotp_t :=
  if u.ptr ≠ nullptr then SlotDeleter u.ptr else []

/-- The move constructor `unique_ptr(unique_ptr&& u)`: takes `u.release()`.
Returns the new object and the moved-from `u`. -/
def slot.move_ctor (u : slot) : slot × slot :=
  let r := u.release
  ({ ptr := r.1 }, r.2)

/-- The move assignment `unique_ptr::operator=(unique_ptr&& u)` for an object `u`
other than `self`: `reset(u.release())`. Returns the new `self`, the moved-from
`u` and the unref calls. -/
def slot.move_assign (self u : slot) : slot × slot × List slotp_t :=
  let r := u.release
  let s := self.reset r.1
  (s.1, r.2, s.2)

end details

/-- The class `struct slot`, holder of one `details::slot _slot`. -/
structure slot where
  _slot : details.slot
  deriving DecidableEq, Repr

/-- The constructor `explicit slot(slotp_t&& s = nullptr) : _slot(s) { s = nullptr; }`.
Returns the new handle, the value of the source reference `s` afterwards, and
the unref calls issued (none: constructing a `unique_ptr` calls no deleter). -/
def slot.ctor (s : slotp_t) : slot × slotp_t × List slotp_t :=
  let self : slot := { _slot := { ptr := s } }
  let s := nullptr
  (self, s, [])

/-- The default construction `slot()`: the constructor with its default argument
`nullptr`. -/
def slot.default_ctor : slot :=
  (slot.ctor nullptr).1

/-- The defaulted move constructor `slot(slot&&)`: member-wise move of `_slot`.
Returns the new handle, the moved-from handle and the unref calls (none). -/
def slot.move_ctor (a : slot) : slot × slot × List slotp_t :=
  let m := a._slot.move_ctor
  ({ _slot := m.1 }, { _slot := m.2 }, [])

/-- The defaulted move assignment `slot& operator=(slot&&)` from a handle `a` other
than `self`: member-wise move assignment of `_slot`. Returns the new `self`, the
moved-from `a` and the unref calls. -/
def slot.move_assign (self a : slot) : slot × slot × List slotp_t :=
  let m := self._slot.move_assign a._slot
  ({ _slot := m.1 }, { _slot := m.2.1 }, m.2.2)

/-- The assignment `slot& operator=(slotp_t&& s)`: `_slot.reset(s); s = nullptr;`.
Returns the new `self`, the value of the source reference `s` afterwards, and
the unref calls. -/
def slot.assign (self : slot) (s : slotp_t) : slot × slotp_t × List slotp_t :=
  let r := self._slot.reset s
  let s := nullptr
  ({ _slot := r.1 }, s, r.2)

/-- The member `slotp_t release()`: `return _slot.release();`. Returns the raw
pointer, the new `self` and the unref calls (none). -/
def slot.release (self : slot) : slotp_t × slot × List slotp_t :=
  let r := self._slot.release
  (r.1, { _slot := r.2 }, [])

/-- The conversion `explicit operator bool() const`: `return bool(_slot);`. -/
def slot.toBool (self : slot) : Bool :=
  self._slot.toBool

/-- The defaulted destructor `~slot()`: destroys `_slot`. Returns the unref calls. -/
def slot.dtor (self : slot) : List slotp_t :=
  self._slot.dtor

/-- The resource a handle owns: its stored pointer (null when it owns none). -/
def slot.get (self : slot) : slotp_t :=
  self._slot.ptr

/-! ### Client programs over several handles

A client program is a sequence of handle operations. Handle objects are numbered
in order of construction; a destroyed object keeps its number and is `none`. -/

/-- One operation of a client program on subscription handles. -/
inductive Op where
  /-- The statement `slot h;` -/
  | default_ctor
  /-- The statement `slot h(std::move(s));` for a raw pointer of value `s`. -/
  | ctor (s : slotp_t)
  /-- The statement `slot h(std::move(src));` -/
  | move_ctor (src : Nat)
  /-- The statement `dst = std::move(src);` -/
  | move_assign (dst src : Nat)
  /-- The statement `dst = std::move(s);` for a raw pointer of value `s`. -/
  | assign (dst : Nat) (s : slotp_t)
  /-- The statement `h.release();` -/
  | release (h : Nat)
  /-- The end of the lifetime of `h`. -/
  | dtor (h : Nat)
  deriving DecidableEq, Repr

/-- The state of a client program: its handle objects (`none` once destroyed) and
the `sd_bus_slot_unref` calls issued so far, oldest first. -/
structure World where
  objs : List (Option slot)
  unrefs : List slotp_t
  deriving DecidableEq, Repr

/-- The state before the first operation. -/
def World.init : World :=
  { objs := [], unrefs := [] }

/-- The handle object number `i`, when it was constructed and is not destroyed. -/
def World.obj (w : World) (i : Nat) : Option slot :=
  match w.objs[i]? with
  | some o => o
  | none => none

/-- Handle object `i` is alive and owns the non-null resource `r`. -/
def World.owns (w : World) (i : Nat) (r : slotp_t) : Prop :=
  r ≠ nullptr ∧ w.obj i = some { _slot := { ptr := r } }

/-- The non-null resources owned by the live handle objects, one entry per owning
object. -/
def World.owned (w : World) : List slotp_t :=
  w.objs.filterMap fun o =>
    match o with
    | some h => if h.get ≠ nullptr then some h.get else none
    | none => none

/-- One operation of a client program. An operation that names an object that was
never constructed or is already destroyed is no statement of a program and
leaves the state as it is. Move assignment works on the stored objects in the
order of `reset(u.release())`, which also covers `dst = std::move(dst)`. -/
def step (w : World) : Op → World
  | .default_ctor => { w with objs := w.objs ++ [some slot.default_ctor] }
  | .ctor s =>
      let c := slot.ctor s
      { objs := w.objs ++ [some c.1], unrefs := w.unrefs ++ c.2.2 }
  | .move_ctor src =>
      match w.obj src with
      | none => w
      | some a =>
          let m := slot.move_ctor a
          { objs := w.objs.set src (some m.2.1) ++ [some m.1], unrefs := w.unrefs ++ m.2.2 }
  | .move_assign dst src =>
      match w.obj src with
      | none => w
      | some a =>
          let r := a._slot.release
          let w1 : World := { w with objs := w.objs.set src (some { _slot := r.2 }) }
          match w1.obj dst with
          | none => w
          | some b =>
              let s := b._slot.reset r.1
              { objs := w1.objs.set dst (some { _slot := s.1 }), unrefs := w.unrefs ++ s.2 }
  | .assign dst s =>
      match w.obj dst with
      | none => w
      | some b =>
          let a := slot.assign b s
          { objs := w.objs.set dst (some a.1), unrefs := w.unrefs ++ a.2.2 }
  | .release h =>
      match w.obj h with
      | none => w
      | some b =>
          let r := slot.release b
          { objs := w.objs.set h (some r.2.1), unrefs := w.unrefs ++ r.2.2 }
  | .dtor h =>
      match w.obj h with
      | none => w
      | some b => { objs := w.objs.set h none, unrefs := w.unrefs ++ slot.dtor b }

/-- The state after a sequence of operations. -/
def run (w : World) : List Op → World
  | [] => w
  | op :: ops => run (step w op) ops

/-- No live handle object owns a same non-null resource as another one. -/
def World.exclusive (w : World) : Prop :=
  ∀ i j r, w.owns i r → w.owns j r → i = j

/-- The raw pointer `s` may be handed to a handle in state `w`: it is null, or it is
owned by no live handle object and `sd_bus_slot_unref` was not yet called on it. -/
def World.fresh (w : World) (s : slotp_t) : Bool :=
  decide (s = nullptr ∨ (s ∉ w.owned ∧ s ∉ w.unrefs))

/-- The operation hands no raw pointer to a handle, or a fresh one. -/
def World.admits (w : World) : Op → Bool
  | .ctor s => w.fresh s
  | .assign _ s => w.fresh s
  | _ => true

/-- Every raw pointer the program hands to a handle is fresh at that point. -/
def admissible (w : World) : List Op → Bool
  | [] => true
  | op :: ops => w.admits op && admissible (step w op) ops

/-- A sample client program that uses every operation: `slot h0; slot h1(raw 1);
slot h2(std::move(h1)); h0 = std::move(h2); h1 = raw 2; p = h1.release();
slot h3(std::move(p));` and the destruction of the four objects. -/
def sample_program : List Op :=
  [.default_ctor, .ctor 1, .move_ctor 1, .move_assign 0 2, .assign 1 2, .release 1, .ctor 2,
    .dtor 0, .dtor 1, .dtor 2, .dtor 3]

/-- The ownership invariant of a store of handle objects `h` and a list `t` of
`sd_bus_slot_unref` calls: no two objects hold a same non-null pointer, no
pointer was passed to `sd_bus_slot_unref` twice, and no object holds a pointer
that was passed to it. -/
def StoreInv (h : Nat → Option slot) (t : List slotp_t) : Prop :=
  (∀ i j r, r ≠ nullptr → h i = some { _slot := { ptr := r } } →
    h j = some { _slot := { ptr := r } } → i = j) ∧
  t.Nodup ∧
  (∀ i r, r ≠ nullptr → h i = some { _slot := { ptr := r } } → r ∉ t)

/-- The ownership invariant of a program state. -/
def World.inv (w : World) : Prop :=
  StoreInv w.obj w.unrefs

end slot

/-- The alias `using slot_t = slot::slot`. -/
abbrev slot_t := slot.slot

end sdbusplus

/-! ## The part of `std::string` the header uses -/

namespace std

/-- The type `std::string`. -/
abbrev string := String

/-- The call `std::char_traits<char>::compare(s1, s2, n)`: the sign of the first
difference among the first `n` characters, `0` when there is none. -/
def char_traits.compare : List Char → List Char → Nat → Int
  | a :: s1, b :: s2, n + 1 =>
      if a < b then -1 else if b < a then 1 else char_traits.compare s1 s2 n
  | _, _, _ => 0

/-- The call `lhs.compare(rhs)` of `std::basic_string`: `traits::compare` over the
common length, and the comparison of the sizes when that finds no difference. -/
def string.compare (lhs rhs : string) : Int :=
  let rlen := min lhs.length rhs.length
  let r := char_traits.compare lhs.data rhs.data rlen
  if r ≠ 0 then r
  else if lhs.length < rhs.length then -1
  else if lhs.length = rhs.length then 0
  else 1

/-- The computation of `string.compare`, stated on the character lists of the two
strings; used to reason by induction on the texts. -/
def list_compare (l1 l2 : List Char) : Int :=
  let r := char_traits.compare l1 l2 (min l1.length l2.length)
  if r ≠ 0 then r
  else if l1.length < l2.length then -1
  else if l1.length = l2.length then 0
  else 1

/-- The operator `lhs == rhs` on `std::string`. -/
def string.operator_eq (lhs rhs : string) : Bool :=
  string.compare lhs rhs == 0

/-- The operator `lhs != rhs` on `std::string`. -/
def string.operator_ne (lhs rhs : string) : Bool :=
  !(string.operator_eq lhs rhs)

/-- The operator `lhs < rhs` on `std::string`. -/
def string.operator_lt (lhs rhs : string) : Bool :=
  decide (string.compare lhs rhs < 0)

end std

/-! ## message/native_types.hpp -/

namespace sdbusplus

namespace message

namespace details

/-- The class `struct string_wrapper { std::string str; ... }`. -/
structure string_wrapper where
  str : std.string
  deriving DecidableEq, Repr

/-- The member `bool operator==(const string_wrapper& r) const`. -/
def string_wrapper.operator_eq (self r : string_wrapper) : Bool :=
  std.string.operator_eq self.str r.str

/-- The member `bool operator!=(const string_wrapper& r) const`. -/
def string_wrapper.operator_ne (self r : string_wrapper) : Bool :=
  std.string.operator_ne self.str r.str

/-- The member `bool operator<(const string_wrapper& r) const`. -/
def string_wrapper.operator_lt (self r : string_wrapper) : Bool :=
  std.string.operator_lt self.str r.str

/-- The member `bool operator==(const std::string& r) const`. -/
def string_wrapper.operator_eq_string (self : string_wrapper) (r : std.string) : Bool :=
  std.string.operator_eq self.str r

/-- The member `bool operator!=(const std::string& r) const`. -/
def string_wrapper.operator_ne_string (self : string_wrapper) (r : std.string) : Bool :=
  std.string.operator_ne self.str r

/-- The member `bool operator<(const std::string& r) const`. -/
def string_wrapper.operator_lt_string (self : string_wrapper) (r : std.string) : Bool :=
  std.string.operator_lt self.str r

/-- The friend `bool operator==(const std::string& l, const string_wrapper& r)`. -/
def string_wrapper.string_operator_eq (l : std.string) (r : string_wrapper) : Bool :=
  std.string.operator_eq l r.str

/-- The friend `bool operator!=(const std::string& l, const string_wrapper& r)`. -/
def string_wrapper.string_operator_ne (l : std.string) (r : string_wrapper) : Bool :=
  std.string.operator_ne l r.str

/-- The friend `bool operator<(const std::string& l, const string_wrapper& r)`. -/
def string_wrapper.string_operator_lt (l : std.string) (r : string_wrapper) : Bool :=
  std.string.operator_lt l r.str

/-- The class `struct string_path_wrapper { std::string str; ... }`. -/
structure string_path_wrapper where
  str : std.string
  deriving DecidableEq, Repr

/-- The member `bool operator==(const string_path_wrapper& r) const`. -/
def string_path_wrapper.operator_eq (self r : string_path_wrapper) : Bool :=
  std.string.operator_eq self.str r.str

/-- The member `bool operator!=(const string_path_wrapper& r) const`. -/
def string_path_wrapper.operator_ne (self r : string_path_wrapper) : Bool :=
  std.string.operator_ne self.str r.str

/-- The member `bool operator<(const string_path_wrapper& r) const`. -/
def string_path_wrapper.operator_lt (self r : string_path_wrapper) : Bool :=
  std.string.operator_lt self.str r.str

/-- The member `bool operator==(const std::string& r) const`. -/
def string_path_wrapper.operator_eq_string (self : string_path_wrapper) (r : std.string) :
    Bool :=
  std.string.operator_eq self.str r

/-- The member `bool operator!=(const std::string& r) const`. -/
def string_path_wrapper.operator_ne_string (self : string_path_wrapper) (r : std.string) :
    Bool :=
  std.string.operator_ne self.str r

/-- The member `bool operator<(const std::string& r) const`. -/
def string_path_wrapper.operator_lt_string (self : string_path_wrapper) (r : std.string) :
    Bool :=
  std.string.operator_lt self.str r

/-- The friend `bool operator==(const std::string& l, const string_path_wrapper& r)`. -/
def string_path_wrapper.string_operator_eq (l : std.string) (r : string_path_wrapper) :
    Bool :=
  std.string.operator_eq l r.str

/-- The friend `bool operator!=(const std::string& l, const string_path_wrapper& r)`. -/
def string_path_wrapper.string_operator_ne (l : std.string) (r : string_path_wrapper) :
    Bool :=
  std.string.operator_ne l r.str

/-- The friend `bool operator<(const std::string& l, const string_path_wrapper& r)`. -/
def string_path_wrapper.string_operator_lt (l : std.string) (r : string_path_wrapper) :
    Bool :=
  std.string.operator_lt l r.str

/-! ### Construction and conversion of the wrappers -/

/-- The defaulted constructor `string_wrapper() = default`: `str` is the empty string. -/
def string_wrapper.default_ctor : string_wrapper :=
  { str := "" }

/-- The constructor `string_wrapper(const std::string& str) : str(str)`: a copy of the
argument. -/
def string_wrapper.ctor_copy (str : std.string) : string_wrapper :=
  { str := str }

/-- The constructor `string_wrapper(std::string&& str) : str(std::move(str))`: the
member takes the text of the transient argument. -/
def string_wrapper.ctor_move (str : std.string) : string_wrapper :=
  { str := str }

/-- The conversion `operator const std::string&() const volatile&`: a reference to
the member `str`. Returns the text read through it and the wrapper afterwards. -/
def string_wrapper.to_const_string (self : string_wrapper) : std.string × string_wrapper :=
  (self.str, self)

/-- The conversion `operator std::string&&() &&`: `return std::move(str);`, an rvalue
reference to the member. Returns the text the receiver takes through it. -/
def string_wrapper.to_rvalue_string (self : string_wrapper) : std.string :=
  self.str

/-- The defaulted constructor `string_path_wrapper() = default`: `str` is the empty
string. -/
def string_path_wrapper.default_ctor : string_path_wrapper :=
  { str := "" }

/-- The constructor `string_path_wrapper(const std::string& str) : str(str)`: a copy of
the argument. -/
def string_path_wrapper.ctor_copy (str : std.string) : string_path_wrapper :=
  { str := str }

/-- The constructor `string_path_wrapper(std::string&& str) : str(std::move(str))`: the
member takes the text of the transient argument. -/
def string_path_wrapper.ctor_move (str : std.string) : string_path_wrapper :=
  { str := str }

/-- The conversion `operator const std::string&() const volatile&`: a reference to
the member `str`. Returns the text read through it and the wrapper afterwards. -/
def string_path_wrapper.to_const_string (self : string_path_wrapper) :
    std.string × string_path_wrapper :=
  (self.str, self)

/-- The conversion `operator std::string&&() &&`: `return std::move(str);`, an rvalue
reference to the member. Returns the text the receiver takes through it. -/
def string_path_wrapper.to_rvalue_string (self : string_path_wrapper) : std.string :=
  self.str

/-! ### Path operations

The header declares `filename`, `parent_path`, `operator/` and `operator/=` of
`string_path_wrapper` and holds no body for them. -/

/-- Modelled from the spec: the final separator of a path text, which the spec uses
to tell the last segment from the segments before it. The result is the text
before the final `'/'` and the text after it, and nothing when the text has no
separator. -/
def split_final_separator : List Char → Option (List Char × List Char)
  | [] => none
  | c :: cs =>
      match split_final_separator cs with
      | some (before, after) => some (c :: before, after)
      | none => if c = '/' then some ([], cs) else none

/-- Modelled from the spec: `std::string filename() const`, declared in the header
without a body: the last path segment, that is the substring after the final
separator. A text without separator is taken as its own last segment. -/
def string_path_wrapper.filename (self : string_path_wrapper) : std.string :=
  match split_final_separator self.str.data with
  | some (_, after) => String.mk after
  | none => self.str

/-- Modelled from the spec: `string_path_wrapper parent_path() const`, declared in the
header without a body: a new path value holding all segments except the last,
that is the text before the final separator (empty when there is none). -/
def string_path_wrapper.parent_path (self : string_path_wrapper) : string_path_wrapper :=
  match split_final_separator self.str.data with
  | some (before, _) => { str := String.mk before }
  | none => { str := "" }

/-- Modelled from the spec: `string_path_wrapper operator/(std::string_view) const`,
declared in the header without a body: the path with a separator and the
segment appended; no second separator is added to a base that already ends in
one. -/
def string_path_wrapper.operator_div (self : string_path_wrapper) (s : std.string) :
    string_path_wrapper :=
  if self.str.data.getLast? = some '/' then { str := self.str ++ s }
  else { str := self.str ++ "/" ++ s }

/-- Modelled from the spec: `string_path_wrapper& operator/=(std::string_view)`,
declared in the header without a body: the mutating form of path-append.
Returns the wrapper afterwards. -/
def string_path_wrapper.operator_div_assign (self : string_path_wrapper) (s : std.string) :
    string_path_wrapper :=
  self.operator_div s

/-! ### File descriptors -/

/-- The class `struct unix_fd_type { int fd; ... }`. -/
structure unix_fd_type where
  fd : Int
  deriving DecidableEq, Repr

/-- The constructor `unix_fd_type(int f) : fd(f)`. Returns the new value and the
descriptors on which it called `close` (the body calls nothing). -/
def unix_fd_type.ctor (f : Int) : unix_fd_type × List Int :=
  ({ fd := f }, [])

/-- The conversion `operator int() const`: `return fd;`. Returns the integer, the
value afterwards and the descriptors on which it called `close` (none). -/
def unix_fd_type.toInt (self : unix_fd_type) : Int × unix_fd_type × List Int :=
  (self.fd, self, [])

/-- The destructor of `unix_fd_type`, which the class does not declare: it is the
implicit one and runs no statement. Returns the descriptors on which it called
`close` (none). -/
def unix_fd_type.dtor (_self : unix_fd_type) : List Int :=
  []

/-- A specialisation of `template <typename T> struct convert_from_string`: it
supplies `static auto op(const std::string&) noexcept`, returning a
`std::optional<T>`. The primary template deletes `op`, so a type has one only
when its implementer wrote it. -/
structure convert_from_string (T : Type) where
  op : std.string → Option T

/-- A specialisation of `template <typename T> struct convert_to_string`: it
supplies `static std::string op(T)`. The primary template deletes `op`. -/
structure convert_to_string (T : Type) where
  op : T → std.string

end details

/-- The function `template <typename T> auto convert_from_string(const std::string& str)
noexcept`: `return details::convert_from_string<T>::op(str);`. -/
def convert_from_string {T : Type} (reg : details.convert_from_string T) (str : std.string) :
    Option T :=
  reg.op str

/-- The function `template <typename T> std::string convert_to_string(T t)`:
`return details::convert_to_string<T>::op(t);`. -/
def convert_to_string {T : Type} (reg : details.convert_to_string T) (t : T) : std.string :=
  reg.op t

/-- Modelled from the spec: the conversion pair that the implementer of a type `T`
registers, that is the specialisations of `details::convert_from_string<T>` and
`details::convert_to_string<T>`; the header holds none. The spec requires of
every registered pair that the string-to-`T` operation is a left inverse of the
`T`-to-string operation: decoding the encoding of a value gives an equal value. -/
def registered_pair {T : Type} (dec : details.convert_from_string T)
    (enc : details.convert_to_string T) : Prop :=
  ∀ v, dec.op (enc.op v) = some v

/-! ### A sample registration -/

/-- A client enumeration `enum class Level { low, high }`. -/
inductive Level where
  | low
  | high
  deriving DecidableEq, Repr

/-- A specialisation `details::convert_to_string<Level>`: the name of the value. -/
def Level.to_string : details.convert_to_string Level :=
  { op := fun t => match t with
      | .low => "low"
      | .high => "high" }

/-- A specialisation `details::convert_from_string<Level>`: the value of the name. -/
def Level.from_string : details.convert_from_string Level :=
  { op := fun str =>
      if str = "low" then some .low
      else if str = "high" then some .high
      else none }

end message

end sdbusplus

namespace std

/-- The specialisation `std::hash<sdbusplus::message::details::string_wrapper>`:
`return hash<std::string>()(s.str);`, over the library hash of `std::string`. -/
def hash_string_wrapper (hash_string : string → Nat)
    (s : sdbusplus.message.details.string_wrapper) : Nat :=
  hash_string s.str

/-- The specialisation `std::hash<sdbusplus::message::details::string_path_wrapper>`:
`return hash<std::string>()(s.str);`, over the library hash of `std::string`. -/
def hash_string_path_wrapper (hash_string : string → Nat)
    (s : sdbusplus.message.details.string_path_wrapper) : Nat :=
  hash_string s.str

end std

/-! ## Comparison of `std::string` -/

namespace std

theorem string_compare_eq_list_compare (lhs rhs : string) :
    string.compare lhs rhs = list_compare lhs.data rhs.data := by
  cases lhs; cases rhs; rfl

theorem list_compare_nil_nil : list_compare [] [] = 0 := by
  simp [list_compare, char_traits.compare]

theorem list_compare_nil_cons (b : Char) (bs : List Char) : list_compare [] (b :: bs) = -1 := by
  simp [list_compare, char_traits.compare]

theorem list_compare_cons_nil (a : Char) (as : List Char) : list_compare (a :: as) [] = 1 := by
  simp [list_compare, char_traits.compare]

theorem list_compare_cons_cons (a b : Char) (as bs : List Char) :
    list_compare (a :: as) (b :: bs)
      = if a < b then -1 else if b < a then 1 else list_compare as bs := by
  simp only [list_compare, List.length_cons, Nat.succ_min_succ, char_traits.compare,
    Nat.add_lt_add_iff_right, Nat.add_right_cancel_iff]
  by_cases h1 : a < b
  · simp [h1]
  · by_cases h2 : b < a
    · simp [h1, h2]
    · simp [h1, h2]

theorem list_lex_cons_cons_iff (a b : Char) (as bs : List Char) :
    List.Lex (· < ·) (a :: as) (b :: bs) ↔ a < b ∨ (a = b ∧ List.Lex (· < ·) as bs) := by
  constructor
  · intro h
    cases h with
    | cons h => exact Or.inr ⟨rfl, h⟩
    | rel h => exact Or.inl h
  · rintro (h | ⟨h1, h2⟩)
    · exact List.Lex.rel h
    · subst h1
      exact List.Lex.cons h2

theorem list_compare_lt_zero_iff (l1 l2 : List Char) :
    list_compare l1 l2 < 0 ↔ List.Lex (· < ·) l1 l2 := by
  induction l1 generalizing l2 with
  | nil =>
    cases l2 with
    | nil =>
      rw [list_compare_nil_nil]
      constructor
      · intro h; exact absurd h (by decide)
      · intro h; cases h
    | cons b bs =>
      rw [list_compare_nil_cons]
      exact ⟨fun _ => List.Lex.nil, fun _ => by decide⟩
  | cons a as ih =>
    cases l2 with
    | nil =>
      rw [list_compare_cons_nil]
      constructor
      · intro h; exact absurd h (by decide)
      · intro h; cases h
    | cons b bs =>
      rw [list_compare_cons_cons, list_lex_cons_cons_iff]
      by_cases h1 : a < b
      · simp [h1]
      · by_cases h2 : b < a
        · have : a ≠ b := (ne_of_lt h2).symm
          simp [h1, h2, this]
        · have : a = b := le_antisymm (not_lt.mp h2) (not_lt.mp h1)
          simp [h1, h2, this, ih]

theorem list_compare_eq_zero_iff (l1 l2 : List Char) : list_compare l1 l2 = 0 ↔ l1 = l2 := by
  induction l1 generalizing l2 with
  | nil =>
    cases l2 with
    | nil => simp [list_compare_nil_nil]
    | cons b bs => simp [list_compare_nil_cons]
  | cons a as ih =>
    cases l2 with
    | nil => simp [list_compare_cons_nil]
    | cons b bs =>
      rw [list_compare_cons_cons]
      by_cases h1 : a < b
      · have : a ≠ b := ne_of_lt h1
        simp [h1, this]
      · by_cases h2 : b < a
        · have : a ≠ b := (ne_of_lt h2).symm
          simp [h1, h2, this]
        · have : a = b := le_antisymm (not_lt.mp h2) (not_lt.mp h1)
          simp [h1, h2, this, ih]

/-- The operator `<` of `std::string` is the lexicographic order of the texts. -/
theorem string_operator_lt_iff (lhs rhs : string) :
    string.operator_lt lhs rhs = true ↔ lhs < rhs := by
  unfold string.operator_lt
  rw [decide_eq_true_iff, string_compare_eq_list_compare, list_compare_lt_zero_iff,
    String.lt_iff_toList_lt]
  exact Iff.rfl

/-- The operator `==` of `std::string` is equality of the texts. -/
theorem string_operator_eq_iff (lhs rhs : string) :
    string.operator_eq lhs rhs = true ↔ lhs = rhs := by
  unfold string.operator_eq
  rw [beq_iff_eq, string_compare_eq_list_compare, list_compare_eq_zero_iff]
  exact String.ext_iff.symm

/-- The operator `==` of `std::string` does not depend on the operand order. -/
theorem string_operator_eq_comm (lhs rhs : string) :
    string.operator_eq lhs rhs = string.operator_eq rhs lhs := by
  rw [Bool.eq_iff_iff, string_operator_eq_iff, string_operator_eq_iff]
  exact eq_comm

/-- The operator `!=` of `std::string` does not depend on the operand order. -/
theorem string_operator_ne_comm (lhs rhs : string) :
    string.operator_ne lhs rhs = string.operator_ne rhs lhs := by
  unfold string.operator_ne
  rw [string_operator_eq_comm]

end std

/-! ## Single-handle contracts of `slot` -/

namespace sdbusplus.slot

/-- C1: for every handle `a` (empty or owning a resource), after move-constructing
`b` from `a` the boolean query of `a` is false, `b` holds exactly the resource `a`
held, the move issued no `sd_bus_slot_unref` call, and destroying `b` issues
exactly one call, on that resource, when the resource is not null (and none
when it is null). -/
theorem move_ctor_transfers_ownership (a : slot) :
    (slot.move_ctor a).2.1.toBool = false ∧
    (slot.move_ctor a).1.get = a.get ∧
    (slot.move_ctor a).2.2 = [] ∧
    (a.get ≠ nullptr → (slot.move_ctor a).1.dtor = [a.get]) ∧
    (a.get = nullptr → (slot.move_ctor a).1.dtor = []) := by
  refine ⟨rfl, rfl, rfl, ?_, ?_⟩
  · intro h
    have h' : a._slot.ptr ≠ 0 := h
    simp [slot.move_ctor, details.slot.move_ctor, details.slot.release, slot.dtor,
      details.slot.dtor, details.SlotDeleter, slot.get, h']
  · intro h
    have h' : a._slot.ptr = 0 := h
    simp [slot.move_ctor, details.slot.move_ctor, details.slot.release, slot.dtor,
      details.slot.dtor, h']

theorem move_ctor_transfers_ownership_witness :
    (slot.move_ctor { _slot := { ptr := 5 } }).2.1.toBool = false ∧
    (slot.move_ctor { _slot := { ptr := 5 } }).1.dtor = [5] ∧
    (slot.move_ctor slot.default_ctor).1.dtor = [] :=
  ⟨(move_ctor_transfers_ownership { _slot := { ptr := 5 } }).1,
    (move_ctor_transfers_ownership { _slot := { ptr := 5 } }).2.2.2.1 (by decide),
    (move_ctor_transfers_ownership slot.default_ctor).2.2.2.2 rfl⟩

/-- C2: for every raw resource `r`, constructing a handle from `r` and calling
`release()` returns exactly `r`, neither step issues a `sd_bus_slot_unref` call,
the handle is then empty (boolean query false), and destroying that handle
issues no call. -/
theorem ctor_release_returns_resource (r : slotp_t) :
    ((slot.ctor r).1.release).1 = r ∧
    (slot.ctor r).2.2 = [] ∧
    ((slot.ctor r).1.release).2.2 = [] ∧
    ((slot.ctor r).1.release).2.1.toBool = false ∧
    ((slot.ctor r).1.release).2.1.dtor = [] :=
  ⟨rfl, rfl, rfl, rfl, rfl⟩

/-- C3: for every handle that owns a resource `r_old` (not null) and every raw
resource `r_new`, assignment from the raw handle issues exactly one
`sd_bus_slot_unref` call, on `r_old`; afterwards the handle holds `r_new` and the
source raw reference is null. -/
theorem assign_releases_old_once (self : slot) (r_new : slotp_t) (h : self.get ≠ nullptr) :
    (self.assign r_new).2.2 = [self.get] ∧
    (self.assign r_new).1.get = r_new ∧
    (self.assign r_new).2.1 = nullptr := by
  have h' : self._slot.ptr ≠ 0 := h
  refine ⟨?_, rfl, rfl⟩
  simp [slot.assign, details.slot.reset, details.SlotDeleter, slot.get, h']

theorem assign_releases_old_once_witness :
    (slot.assign { _slot := { ptr := 3 } } 7).2.2 = [3] ∧
    (slot.assign { _slot := { ptr := 3 } } 7).1.get = 7 ∧
    (slot.assign { _slot := { ptr := 3 } } 7).2.1 = nullptr :=
  assign_releases_old_once { _slot := { ptr := 3 } } 7 (by decide)

/-- C5: for every raw resource handle `r` (null included), constructing a handle
from `r` issues no `sd_bus_slot_unref` call, leaves the source raw reference
null, and gives a handle that holds `r` and whose boolean query is true exactly
when `r` is not null; the default-constructed handle is empty. -/
theorem ctor_takes_ownership (r : slotp_t) :
    (slot.ctor r).2.2 = [] ∧
    (slot.ctor r).2.1 = nullptr ∧
    (slot.ctor r).1.get = r ∧
    ((slot.ctor r).1.toBool = true ↔ r ≠ nullptr) ∧
    slot.default_ctor.toBool = false ∧
    slot.default_ctor.get = nullptr := by
  refine ⟨rfl, rfl, rfl, ?_, rfl, rfl⟩
  simp [slot.ctor, slot.toBool, details.slot.toBool]

end sdbusplus.slot

/-! ## Typed string wrappers -/

namespace sdbusplus.message.details

/-- C6: for both wrapper kinds, a wrapper `w` and a plain string `s`: `w == s` and
`s == w` both equal the `std::string` comparison `w.str == s`, `w != s` and
`s != w` both equal `w.str != s`; for two wrappers of one kind `w1 == w2` holds
exactly when the texts are equal and `w1 != w2` is its negation; the
`std::string` comparison itself holds exactly when the two texts are equal. -/
theorem wrapper_equality_is_text_equality (w w1 w2 : string_wrapper)
    (p p1 p2 : string_path_wrapper) (s : std.string) :
    (w.operator_eq_string s = std.string.operator_eq w.str s ∧
      string_wrapper.string_operator_eq s w = std.string.operator_eq w.str s ∧
      w.operator_ne_string s = std.string.operator_ne w.str s ∧
      string_wrapper.string_operator_ne s w = std.string.operator_ne w.str s ∧
      (w1.operator_eq w2 = true ↔ w1.str = w2.str) ∧
      w1.operator_ne w2 = !(w1.operator_eq w2)) ∧
    (p.operator_eq_string s = std.string.operator_eq p.str s ∧
      string_path_wrapper.string_operator_eq s p = std.string.operator_eq p.str s ∧
      p.operator_ne_string s = std.string.operator_ne p.str s ∧
      string_path_wrapper.string_operator_ne s p = std.string.operator_ne p.str s ∧
      (p1.operator_eq p2 = true ↔ p1.str = p2.str) ∧
      p1.operator_ne p2 = !(p1.operator_eq p2)) ∧
    (std.string.operator_eq w.str s = true ↔ w.str = s) ∧
    (std.string.operator_ne w.str s = true ↔ w.str ≠ s) := by
  refine ⟨⟨rfl, std.string_operator_eq_comm _ _, rfl, std.string_operator_ne_comm _ _,
    std.string_operator_eq_iff _ _, rfl⟩,
    ⟨rfl, std.string_operator_eq_comm _ _, rfl, std.string_operator_ne_comm _ _,
    std.string_operator_eq_iff _ _, rfl⟩, std.string_operator_eq_iff _ _, ?_⟩
  unfold std.string.operator_ne
  rw [Bool.not_eq_true', ← Bool.not_eq_true, std.string_operator_eq_iff]

/-- C7: for both wrapper kinds and all strings `a`, `b`: each of
wrapper-of-`a` `<` wrapper-of-`b`, wrapper-of-`a` `< b` and `a <` wrapper-of-`b`
holds exactly when `a` is lexicographically less than `b`. -/
theorem wrapper_less_is_lexicographic (a b : std.string) :
    ((string_wrapper.operator_lt ⟨a⟩ ⟨b⟩ = true ↔ a < b) ∧
      (string_wrapper.operator_lt_string ⟨a⟩ b = true ↔ a < b) ∧
      (string_wrapper.string_operator_lt a ⟨b⟩ = true ↔ a < b)) ∧
    ((string_path_wrapper.operator_lt ⟨a⟩ ⟨b⟩ = true ↔ a < b) ∧
      (string_path_wrapper.operator_lt_string ⟨a⟩ b = true ↔ a < b) ∧
      (string_path_wrapper.string_operator_lt a ⟨b⟩ = true ↔ a < b)) :=
  ⟨⟨std.string_operator_lt_iff a b, std.string_operator_lt_iff a b,
      std.string_operator_lt_iff a b⟩,
    ⟨std.string_operator_lt_iff a b, std.string_operator_lt_iff a b,
      std.string_operator_lt_iff a b⟩⟩

end sdbusplus.message.details

/-! ## Hashing -/

namespace std

open sdbusplus.message.details

/-- C8: for every library hash of `std::string`, every string `s` and both wrapper
kinds, the `std::hash` specialisation applied to a wrapper holding `s` returns
the hash of `s`; so two wrappers that compare equal with `==` have equal
hashes. -/
theorem hash_wrapper_is_hash_of_text (hash_string : string → Nat) (s : string)
    (w1 w2 : string_wrapper) (p1 p2 : string_path_wrapper) :
    hash_string_wrapper hash_string ⟨s⟩ = hash_string s ∧
    hash_string_path_wrapper hash_string ⟨s⟩ = hash_string s ∧
    (w1.operator_eq w2 = true →
      hash_string_wrapper hash_string w1 = hash_string_wrapper hash_string w2) ∧
    (p1.operator_eq p2 = true →
      hash_string_path_wrapper hash_string p1 = hash_string_path_wrapper hash_string p2) := by
  refine ⟨rfl, rfl, ?_, ?_⟩
  · intro h
    have e : w1.str = w2.str := (string_operator_eq_iff _ _).mp h
    simp [hash_string_wrapper, e]
  · intro h
    have e : p1.str = p2.str := (string_operator_eq_iff _ _).mp h
    simp [hash_string_path_wrapper, e]

theorem hash_wrapper_is_hash_of_text_witness :
    hash_string_wrapper String.length ⟨"/foo"⟩ = 4 ∧
    hash_string_path_wrapper String.length ⟨"/foo"⟩ = 4 ∧
    string_wrapper.operator_eq ⟨"ab"⟩ ⟨"ab"⟩ = true ∧
    hash_string_wrapper String.length ⟨"ab"⟩ = hash_string_wrapper String.length ⟨"ab"⟩ ∧
    string_path_wrapper.operator_eq ⟨"/a"⟩ ⟨"/a"⟩ = true ∧
    hash_string_path_wrapper String.length ⟨"/a"⟩
      = hash_string_path_wrapper String.length ⟨"/a"⟩ :=
  have e1 : string_wrapper.operator_eq ⟨"ab"⟩ ⟨"ab"⟩ = true := by decide
  have e2 : string_path_wrapper.operator_eq ⟨"/a"⟩ ⟨"/a"⟩ = true := by decide
  have t := hash_wrapper_is_hash_of_text String.length "/foo" ⟨"ab"⟩ ⟨"ab"⟩ ⟨"/a"⟩ ⟨"/a"⟩
  ⟨t.1, t.2.1, e1, t.2.2.1 e1, e2, t.2.2.2 e2⟩

end std

/-! ## Conversion entry points -/

namespace sdbusplus.message

/-- C9: for every type `T` with a registered conversion pair and every value `v` of
`T`, `convert_from_string<T>(convert_to_string<T>(v))` is what the registered
decode operation returns on the registered encoding of `v`, and that is a
present optional holding `v`. -/
theorem convert_round_trip {T : Type} (dec : details.convert_from_string T)
    (enc : details.convert_to_string T) (h : registered_pair dec enc) (v : T) :
    convert_from_string dec (convert_to_string enc v) = dec.op (enc.op v) ∧
    convert_from_string dec (convert_to_string enc v) = some v :=
  ⟨rfl, h v⟩

theorem convert_round_trip_witness :
    registered_pair Level.from_string Level.to_string ∧
    convert_to_string Level.to_string Level.high = "high" ∧
    convert_from_string Level.from_string (convert_to_string Level.to_string Level.high)
      = some Level.high :=
  have h : registered_pair Level.from_string Level.to_string := by
    intro v
    cases v <;> decide
  ⟨h, by decide, (convert_round_trip Level.from_string Level.to_string h Level.high).2⟩

/-- C10: for every registered decoder and every string `s`, `convert_from_string`
returns exactly what the registered decoder returns on `s`: a value when the
decoder gives one, and no value exactly when the decoder gives none. The result
is always an optional; there is no other outcome. -/
theorem convert_from_string_is_registered_decode {T : Type}
    (dec : details.convert_from_string T) (s : std.string) :
    convert_from_string dec s = dec.op s ∧
    (dec.op s = none → convert_from_string dec s = none) ∧
    (convert_from_string dec s = none ↔ dec.op s = none) ∧
    (∀ v, convert_from_string dec s = some v ↔ dec.op s = some v) :=
  ⟨rfl, fun h => h, Iff.rfl, fun _ => Iff.rfl⟩

theorem convert_from_string_is_registered_decode_witness :
    Level.from_string.op "medium" = none ∧
    convert_from_string Level.from_string "medium" = none ∧
    convert_from_string Level.from_string "high" = some Level.high :=
  have h : Level.from_string.op "medium" = none := by decide
  ⟨h, (convert_from_string_is_registered_decode Level.from_string "medium").2.1 h,
    ((convert_from_string_is_registered_decode Level.from_string "high").2.2.2 Level.high).mpr
      (by decide)⟩

end sdbusplus.message

/-! ## Programs over several handles -/

namespace sdbusplus.slot

theorem slot_eta (a : slot) : a = { _slot := { ptr := a._slot.ptr } } := by
  cases a with
  | mk u => cases u; rfl

theorem obj_lt_length {w : World} {i : Nat} {a : slot} (h : w.obj i = some a) :
    i < w.objs.length := by
  by_contra hc
  have hn : w.objs[i]? = none := List.getElem?_eq_none (Nat.le_of_not_lt hc)
  simp [World.obj, hn] at h

theorem obj_set (w : World) (u : List slotp_t) (k : Nat) (o : Option slot)
    (hk : k < w.objs.length) :
    World.obj { objs := w.objs.set k o, unrefs := u } = Function.update w.obj k o := by
  funext j
  by_cases h : j = k
  · subst h
    simp [World.obj, List.getElem?_set, hk]
  · have h' : ¬ k = j := fun e => h e.symm
    simp [World.obj, List.getElem?_set, h, h']

theorem obj_append (w : World) (u : List slotp_t) (o : Option slot) :
    World.obj { objs := w.objs ++ [o], unrefs := u } = Function.update w.obj w.objs.length o := by
  funext j
  by_cases h : j = w.objs.length
  · subst h
    simp [World.obj]
  · rcases Nat.lt_or_gt_of_ne h with h1 | h1
    · simp [World.obj, List.getElem?_append_left h1, h]
    · have h2 : w.objs[j]? = none := List.getElem?_eq_none (Nat.le_of_lt h1)
      have h3 : (w.objs ++ [o])[j]? = none :=
        List.getElem?_eq_none (by simp; omega)
      simp [World.obj, h, h2, h3]

theorem obj_length_eq_none (w : World) : w.obj w.objs.length = none := by
  have h2 : w.objs[w.objs.length]? = none := List.getElem?_eq_none (Nat.le_refl _)
  simp [World.obj, h2]

theorem storeInv_set_ptr {h : Nat → Option slot} {t : List slotp_t} (k : Nat) (p : slotp_t)
    (hi : StoreInv h t)
    (hp : p = nullptr ∨ ((∀ j, j ≠ k → h j ≠ some { _slot := { ptr := p } }) ∧ p ∉ t)) :
    StoreInv (Function.update h k (some { _slot := { ptr := p } })) t := by
  obtain ⟨hE, hN, hD⟩ := hi
  refine ⟨?_, hN, ?_⟩
  · intro i j r hr h1 h2
    by_cases hik : i = k
    · by_cases hjk : j = k
      · rw [hik, hjk]
      · subst hik
        simp only [Function.update_same, Option.some.injEq, slot.mk.injEq,
          details.slot.mk.injEq] at h1
        rw [Function.update_noteq hjk] at h2
        subst h1
        rcases hp with hp | hp
        · exact absurd hp hr
        · exact absurd h2 (hp.1 j hjk)
    · rw [Function.update_noteq hik] at h1
      by_cases hjk : j = k
      · subst hjk
        simp only [Function.update_same, Option.some.injEq, slot.mk.injEq,
          details.slot.mk.injEq] at h2
        subst h2
        rcases hp with hp | hp
        · exact absurd hp hr
        · exact absurd h1 (hp.1 i hik)
      · rw [Function.update_noteq hjk] at h2
        exact hE i j r hr h1 h2
  · intro i r hr h1
    by_cases hik : i = k
    · subst hik
      simp only [Function.update_same, Option.some.injEq, slot.mk.injEq,
        details.slot.mk.injEq] at h1
      subst h1
      rcases hp with hp | hp
      · exact absurd hp hr
      · exact hp.2
    · rw [Function.update_noteq hik] at h1
      exact hD i r hr h1

theorem storeInv_set_none {h : Nat → Option slot} {t : List slotp_t} (k : Nat)
    (hi : StoreInv h t) : StoreInv (Function.update h k none) t := by
  obtain ⟨hE, hN, hD⟩ := hi
  have key : ∀ i a, Function.update h k none i = some a → h i = some a := by
    intro i a hia
    by_cases hik : i = k
    · subst hik
      simp at hia
    · rwa [Function.update_noteq hik] at hia
  exact ⟨fun i j r hr h1 h2 => hE i j r hr (key _ _ h1) (key _ _ h2), hN,
    fun i r hr h1 => hD i r hr (key _ _ h1)⟩

theorem storeInv_unref {h : Nat → Option slot} {t : List slotp_t} (q : slotp_t)
    (hi : StoreInv h t) (hq : q ∉ t) (hown : ∀ j, h j ≠ some { _slot := { ptr := q } }) :
    StoreInv h (t ++ [q]) := by
  obtain ⟨hE, hN, hD⟩ := hi
  refine ⟨hE, ?_, ?_⟩
  · rw [List.nodup_append]
    refine ⟨hN, List.nodup_singleton q, ?_⟩
    intro a ha hb
    rw [List.mem_singleton] at hb
    subst hb
    exact hq ha
  · intro i r hr h1 hmem
    rw [List.mem_append, List.mem_singleton] at hmem
    rcases hmem with hmem | hmem
    · exact hD i r hr h1 hmem
    · subst hmem
      exact hown i h1

theorem storeInv_take {h : Nat → Option slot} {t : List slotp_t} (k : Nat) (q : slotp_t)
    (hi : StoreInv h t) (hk : h k = some { _slot := { ptr := q } }) :
    StoreInv (Function.update h k (some { _slot := { ptr := nullptr } })) t ∧
    (q ≠ nullptr →
      (∀ j, Function.update h k (some { _slot := { ptr := nullptr } }) j
        ≠ some { _slot := { ptr := q } }) ∧ q ∉ t) := by
  refine ⟨storeInv_set_ptr k nullptr hi (Or.inl rfl), ?_⟩
  intro hq
  refine ⟨?_, hi.2.2 k q hq hk⟩
  intro j hj
  by_cases hjk : j = k
  · subst hjk
    simp only [Function.update_same, Option.some.injEq, slot.mk.injEq,
      details.slot.mk.injEq] at hj
    exact hq hj.symm
  · rw [Function.update_noteq hjk] at hj
    exact hjk (hi.1 j k q hq hj hk)

theorem storeInv_take_unref {h : Nat → Option slot} {t : List slotp_t} (k : Nat) (q : slotp_t)
    (hi : StoreInv h t) (hk : h k = some { _slot := { ptr := q } }) :
    StoreInv (Function.update h k (some { _slot := { ptr := nullptr } }))
      (t ++ if q ≠ nullptr then details.SlotDeleter q else []) := by
  obtain ⟨h1, h2⟩ := storeInv_take k q hi hk
  by_cases hq : q = nullptr
  · simpa [hq] using h1
  · rw [if_pos hq]
    exact storeInv_unref q h1 (h2 hq).2 (h2 hq).1

theorem mem_owned_iff (w : World) (s : slotp_t) :
    s ∈ w.owned ↔ s ≠ nullptr ∧ ∃ i, w.obj i = some { _slot := { ptr := s } } := by
  unfold World.owned
  rw [List.mem_filterMap]
  constructor
  · rintro ⟨o, ho, hf⟩
    cases o with
    | none => simp at hf
    | some a =>
      by_cases ha : a.get ≠ nullptr
      · replace hf : (if a.get ≠ nullptr then some a.get else none) = some s := hf
        rw [if_pos ha, Option.some.injEq] at hf
        obtain ⟨i, hi⟩ := List.mem_iff_getElem?.mp ho
        refine ⟨hf ▸ ha, i, ?_⟩
        have e : a = { _slot := { ptr := s } } := by
          rw [slot_eta a]
          exact congrArg (fun p => ({ _slot := { ptr := p } } : slot)) hf
        simp [World.obj, hi, e]
      · replace hf : (if a.get ≠ nullptr then some a.get else none) = some s := hf
        rw [if_neg ha] at hf
        cases hf
  · rintro ⟨hs, i, hi⟩
    refine ⟨some { _slot := { ptr := s } }, ?_, ?_⟩
    · apply List.mem_iff_getElem?.mpr
      refine ⟨i, ?_⟩
      unfold World.obj at hi
      cases hc : w.objs[i]? with
      | none => simp [hc] at hi
      | some o => simp [hc] at hi; simp [hi]
    · have hs' : ¬ s = 0 := hs
      simp [slot.get, hs']

theorem fresh_iff (w : World) (s : slotp_t) :
    w.fresh s = true ↔
      s = nullptr ∨ ((∀ j, w.obj j ≠ some { _slot := { ptr := s } }) ∧ s ∉ w.unrefs) := by
  unfold World.fresh
  rw [decide_eq_true_iff, mem_owned_iff]
  constructor
  · rintro (h | ⟨h1, h2⟩)
    · exact Or.inl h
    · by_cases hs : s = nullptr
      · exact Or.inl hs
      · exact Or.inr ⟨fun j hj => h1 ⟨hs, j, hj⟩, h2⟩
  · rintro (h | ⟨h1, h2⟩)
    · exact Or.inl h
    · exact Or.inr ⟨fun ⟨_, j, hj⟩ => h1 j hj, h2⟩

theorem step_move_ctor_eq {w : World} {src : Nat} {a : slot} (hsrc : w.obj src = some a) :
    step w (.move_ctor src)
      = { objs := w.objs.set src (some { _slot := { ptr := nullptr } })
            ++ [some { _slot := { ptr := a._slot.ptr } }],
          unrefs := w.unrefs } := by
  simp [step, hsrc, slot.move_ctor, details.slot.move_ctor, details.slot.release]

theorem step_move_assign_eq {w : World} {dst src : Nat} {a b : slot}
    (hsrc : w.obj src = some a)
    (hdst : World.obj { objs := w.objs.set src (some { _slot := { ptr := nullptr } }),
                        unrefs := w.unrefs } dst = some b) :
    step w (.move_assign dst src)
      = { objs := (w.objs.set src (some { _slot := { ptr := nullptr } })).set dst
            (some { _slot := { ptr := a._slot.ptr } }),
          unrefs := w.unrefs
            ++ if b._slot.ptr ≠ nullptr then details.SlotDeleter b._slot.ptr else [] } := by
  simp only [step, hsrc, details.slot.release, hdst, details.slot.reset]

/-- For two different objects the move-assignment step is `slot.move_assign`. -/
theorem step_move_assign_distinct {w : World} {dst src : Nat} {a b : slot} (hne : dst ≠ src)
    (hsrc : w.obj src = some a) (hdst : w.obj dst = some b) :
    step w (.move_assign dst src)
      = { objs := (w.objs.set src (some (slot.move_assign b a).2.1)).set dst
            (some (slot.move_assign b a).1),
          unrefs := w.unrefs ++ (slot.move_assign b a).2.2 } := by
  have hlen := obj_lt_length hsrc
  have h1 : World.obj (World.mk (w.objs.set src (some { _slot := { ptr := nullptr } }))
      w.unrefs) dst = some b := by
    rw [obj_set w w.unrefs src _ hlen, Function.update_noteq hne]
    exact hdst
  rw [step_move_assign_eq hsrc h1]
  rfl

theorem step_move_assign_dead {w : World} {dst src : Nat} {a : slot}
    (hsrc : w.obj src = some a)
    (hdst : World.obj { objs := w.objs.set src (some { _slot := { ptr := nullptr } }),
                        unrefs := w.unrefs } dst = none) :
    step w (.move_assign dst src) = w := by
  simp only [step, hsrc, details.slot.release, hdst]

theorem step_assign_eq {w : World} {dst : Nat} {s : slotp_t} {b : slot}
    (hdst : w.obj dst = some b) :
    step w (.assign dst s)
      = { objs := w.objs.set dst (some { _slot := { ptr := s } }),
          unrefs := w.unrefs
            ++ if b._slot.ptr ≠ nullptr then details.SlotDeleter b._slot.ptr else [] } := by
  simp only [step, hdst, slot.assign, details.slot.reset]

theorem step_release_eq {w : World} {h : Nat} {b : slot} (hb : w.obj h = some b) :
    step w (.release h)
      = { objs := w.objs.set h (some { _slot := { ptr := nullptr } }), unrefs := w.unrefs } := by
  simp [step, hb, slot.release, details.slot.release]

theorem step_dtor_eq {w : World} {h : Nat} {b : slot} (hb : w.obj h = some b) :
    step w (.dtor h)
      = { objs := w.objs.set h none,
          unrefs := w.unrefs
            ++ if b._slot.ptr ≠ nullptr then details.SlotDeleter b._slot.ptr else [] } := by
  simp only [step, hb, slot.dtor, details.slot.dtor]

theorem obj_eq_mk {w : World} {i : Nat} {a : slot} (h : w.obj i = some a) :
    w.obj i = some { _slot := { ptr := a._slot.ptr } } :=
  h

theorem not_mem_append_deleter {t : List slotp_t} {s q : slotp_t} (h1 : s ∉ t)
    (h2 : q ≠ nullptr → s ≠ q) :
    s ∉ t ++ if q ≠ nullptr then details.SlotDeleter q else [] := by
  by_cases hq : q = nullptr
  · simpa [hq] using h1
  · rw [if_pos hq, List.mem_append, details.SlotDeleter, List.mem_singleton]
    rintro (h | h)
    · exact h1 h
    · exact h2 hq h

/-- An admitted operation keeps the ownership invariant. -/
theorem step_inv (w : World) (op : Op) (hi : w.inv) (ha : w.admits op = true) :
    (step w op).inv := by
  cases op with
  | default_ctor =>
    show StoreInv (World.obj { objs := w.objs ++ [some slot.default_ctor], unrefs := w.unrefs })
      w.unrefs
    rw [obj_append]
    exact storeInv_set_ptr _ nullptr hi (Or.inl rfl)
  | ctor s =>
    have hf := (fresh_iff w s).mp ha
    show StoreInv (World.obj (World.mk (w.objs ++ [some { _slot := { ptr := s } }])
      (w.unrefs ++ []))) (w.unrefs ++ [])
    rw [obj_append, List.append_nil]
    apply storeInv_set_ptr _ s hi
    rcases hf with hf | hf
    · exact Or.inl hf
    · exact Or.inr ⟨fun j _ => hf.1 j, hf.2⟩
  | move_ctor src =>
    cases hsrc : w.obj src with
    | none =>
      have e : step w (.move_ctor src) = w := by simp [step, hsrc]
      rw [e]; exact hi
    | some a =>
      have hlen := obj_lt_length hsrc
      obtain ⟨h1, h2⟩ := storeInv_take src a._slot.ptr hi (obj_eq_mk hsrc)
      rw [step_move_ctor_eq hsrc]
      show StoreInv (World.obj _) w.unrefs
      rw [obj_append (World.mk (w.objs.set src (some { _slot := { ptr := nullptr } })) w.unrefs)
        w.unrefs, obj_set w w.unrefs src _ hlen]
      apply storeInv_set_ptr _ _ h1
      by_cases hq : a._slot.ptr = nullptr
      · exact Or.inl hq
      · exact Or.inr ⟨fun j _ => (h2 hq).1 j, (h2 hq).2⟩
  | move_assign dst src =>
    cases hsrc : w.obj src with
    | none =>
      have e : step w (.move_assign dst src) = w := by simp [step, hsrc]
      rw [e]; exact hi
    | some a =>
      have hlen := obj_lt_length hsrc
      obtain ⟨h1, h2⟩ := storeInv_take src a._slot.ptr hi (obj_eq_mk hsrc)
      cases hdst : World.obj
          (World.mk (w.objs.set src (some { _slot := { ptr := nullptr } })) w.unrefs) dst with
      | none => rw [step_move_assign_dead hsrc hdst]; exact hi
      | some b =>
        have hlen2 := obj_lt_length hdst
        have hb := obj_eq_mk hdst
        rw [obj_set w w.unrefs src _ hlen] at hb
        have h3 := storeInv_take_unref dst b._slot.ptr h1 hb
        rw [step_move_assign_eq hsrc hdst]
        show StoreInv (World.obj _) _
        rw [obj_set (World.mk (w.objs.set src (some { _slot := { ptr := nullptr } })) w.unrefs)
          _ dst _ hlen2, obj_set w w.unrefs src _ hlen]
        have h4 := storeInv_set_ptr dst a._slot.ptr h3 (by
          by_cases hq : a._slot.ptr = nullptr
          · exact Or.inl hq
          · refine Or.inr ⟨fun j hj => ?_, not_mem_append_deleter (h2 hq).2 ?_⟩
            · rw [Function.update_noteq hj]
              exact (h2 hq).1 j
            · intro _ e
              rw [← e] at hb
              exact (h2 hq).1 dst hb)
        rwa [Function.update_idem] at h4
  | assign dst s =>
    have hf := (fresh_iff w s).mp ha
    cases hdst : w.obj dst with
    | none =>
      have e : step w (.assign dst s) = w := by simp [step, hdst]
      rw [e]; exact hi
    | some b =>
      have hlen := obj_lt_length hdst
      have hb := obj_eq_mk hdst
      have h3 := storeInv_take_unref dst b._slot.ptr hi hb
      rw [step_assign_eq hdst]
      show StoreInv (World.obj _) _
      rw [obj_set w _ dst _ hlen]
      have h4 := storeInv_set_ptr dst s h3 (by
        rcases hf with hf | hf
        · exact Or.inl hf
        · refine Or.inr ⟨fun j hj => ?_, not_mem_append_deleter hf.2 ?_⟩
          · rw [Function.update_noteq hj]
            exact hf.1 j
          · intro _ e
            rw [← e] at hb
            exact hf.1 dst hb)
      rwa [Function.update_idem] at h4
  | release h =>
    cases hb : w.obj h with
    | none =>
      have e : step w (.release h) = w := by simp [step, hb]
      rw [e]; exact hi
    | some b =>
      have hlen := obj_lt_length hb
      rw [step_release_eq hb]
      show StoreInv (World.obj _) _
      rw [obj_set w _ h _ hlen]
      exact (storeInv_take h b._slot.ptr hi (obj_eq_mk hb)).1
  | dtor h =>
    cases hb : w.obj h with
    | none =>
      have e : step w (.dtor h) = w := by simp [step, hb]
      rw [e]; exact hi
    | some b =>
      have hlen := obj_lt_length hb
      have h3 := storeInv_take_unref h b._slot.ptr hi (obj_eq_mk hb)
      rw [step_dtor_eq hb]
      show StoreInv (World.obj _) _
      rw [obj_set w _ h _ hlen]
      have h4 := storeInv_set_none h h3
      rwa [Function.update_idem] at h4

/-- An operation only appends to the list of `sd_bus_slot_unref` calls. -/
theorem step_unrefs (w : World) (op : Op) : ∃ l, (step w op).unrefs = w.unrefs ++ l := by
  cases op with
  | default_ctor => exact ⟨[], (List.append_nil _).symm⟩
  | ctor s => exact ⟨[], rfl⟩
  | move_ctor src =>
    cases hsrc : w.obj src with
    | none => exact ⟨[], by simp [step, hsrc]⟩
    | some a => exact ⟨[], by rw [step_move_ctor_eq hsrc, List.append_nil]⟩
  | move_assign dst src =>
    cases hsrc : w.obj src with
    | none => exact ⟨[], by simp [step, hsrc]⟩
    | some a =>
      cases hdst : World.obj
          (World.mk (w.objs.set src (some { _slot := { ptr := nullptr } })) w.unrefs) dst with
      | none => exact ⟨[], by rw [step_move_assign_dead hsrc hdst, List.append_nil]⟩
      | some b => exact ⟨_, by rw [step_move_assign_eq hsrc hdst]⟩
  | assign dst s =>
    cases hdst : w.obj dst with
    | none => exact ⟨[], by simp [step, hdst]⟩
    | some b => exact ⟨_, by rw [step_assign_eq hdst]⟩
  | release h =>
    cases hb : w.obj h with
    | none => exact ⟨[], by simp [step, hb]⟩
    | some b => exact ⟨[], by rw [step_release_eq hb, List.append_nil]⟩
  | dtor h =>
    cases hb : w.obj h with
    | none => exact ⟨[], by simp [step, hb]⟩
    | some b => exact ⟨_, by rw [step_dtor_eq hb]⟩

theorem run_unrefs (w : World) (ops : List Op) : ∃ l, (run w ops).unrefs = w.unrefs ++ l := by
  induction ops generalizing w with
  | nil => exact ⟨[], (List.append_nil _).symm⟩
  | cons op ops ih =>
    obtain ⟨l1, h1⟩ := step_unrefs w op
    obtain ⟨l2, h2⟩ := ih (step w op)
    exact ⟨l1 ++ l2, by rw [run, h2, h1, List.append_assoc]⟩

theorem run_append (w : World) (a b : List Op) : run w (a ++ b) = run (run w a) b := by
  induction a generalizing w with
  | nil => rfl
  | cons op a ih => exact ih (step w op)

theorem admissible_append (w : World) (a b : List Op) :
    admissible w (a ++ b) = (admissible w a && admissible (run w a) b) := by
  induction a generalizing w with
  | nil => simp [admissible, run]
  | cons op a ih => simp [admissible, run, ih, Bool.and_assoc]

theorem run_inv (w : World) (ops : List Op) (hi : w.inv) (ha : admissible w ops = true) :
    (run w ops).inv := by
  induction ops generalizing w with
  | nil => exact hi
  | cons op ops ih =>
    rw [admissible, Bool.and_eq_true] at ha
    exact ih (step w op) (step_inv w op hi ha.1) ha.2

theorem init_inv : World.init.inv :=
  ⟨fun i j r _ h _ => by simp [World.init, World.obj] at h, List.nodup_nil,
    fun i r _ _ h => by simp [World.init] at h⟩

theorem exclusive_of_inv {w : World} (hi : w.inv) : w.exclusive :=
  fun i j r h1 h2 => hi.1 i j r h1.1 h1.2 h2.2

/-- Destroying a handle that owns `r` calls `sd_bus_slot_unref` on `r`. -/
theorem dtor_unrefs_owned {w : World} {i : Nat} {r : slotp_t} (h : w.owns i r) :
    r ∈ (step w (.dtor i)).unrefs := by
  have hr : (r : Nat) ≠ 0 := h.1
  rw [step_dtor_eq h.2]
  simp [details.SlotDeleter, hr]

/-- C4, as stated, fails: after `slot a(raw 1); slot b(raw 1);`, built from two raw
copies of one pointer, the objects 0 and 1 both own resource 1, and destroying
both calls `sd_bus_slot_unref` on it twice; a pointer handed over again after
its handle was destroyed is likewise passed to the call a second time. -/
theorem shared_raw_pointer_breaks_exclusive_ownership :
    (run World.init [.ctor 1, .ctor 1]).owns 0 1 ∧
    (run World.init [.ctor 1, .ctor 1]).owns 1 1 ∧
    ¬ (run World.init [.ctor 1, .ctor 1]).exclusive ∧
    (run World.init [.ctor 1, .ctor 1, .dtor 0, .dtor 1]).unrefs = [1, 1] ∧
    (run World.init [.ctor 1, .dtor 0, .ctor 1, .dtor 1]).unrefs = [1, 1] := by
  have h0 : (run World.init [.ctor 1, .ctor 1]).owns 0 1 := ⟨by decide, by decide⟩
  have h1 : (run World.init [.ctor 1, .ctor 1]).owns 1 1 := ⟨by decide, by decide⟩
  refine ⟨h0, h1, ?_, by decide, by decide⟩
  intro h
  exact absurd (h 0 1 1 h0 h1) (by decide)

/-- C4, amended: for every sequence of handle operations in which each raw pointer
handed to a constructor or to assignment from a raw handle is, at that point,
null or neither owned by a live handle nor already passed to
`sd_bus_slot_unref`: at every point at most one handle object owns any given
non-null resource; over the whole sequence `sd_bus_slot_unref` is called at
most once per resource; and it is called exactly once on each resource that a
handle owned when that handle was destroyed. -/
theorem exclusive_ownership_of_admissible_program (ops : List Op)
    (h : admissible World.init ops = true) :
    (∀ k, (run World.init (ops.take k)).exclusive) ∧
    (∀ r, (run World.init ops).unrefs.count r ≤ 1) ∧
    (∀ k i r, ops[k]? = some (.dtor i) → (run World.init (ops.take k)).owns i r →
      (run World.init ops).unrefs.count r = 1) := by
  have hsplit : ∀ k, admissible World.init (ops.take k) = true ∧
      admissible (run World.init (ops.take k)) (ops.drop k) = true := by
    intro k
    have e := admissible_append World.init (ops.take k) (ops.drop k)
    rw [List.take_append_drop, h] at e
    exact Bool.and_eq_true_iff.mp e.symm
  have hfinal : (run World.init ops).inv := run_inv _ _ init_inv h
  refine ⟨fun k => exclusive_of_inv (run_inv _ _ init_inv (hsplit k).1), ?_, ?_⟩
  · intro r
    exact List.nodup_iff_count_le_one.mp hfinal.2.1 r
  · intro k i r hk hown
    apply List.count_eq_one_of_mem hfinal.2.1
    have hlt : k < ops.length := by
      by_contra hc
      rw [List.getElem?_eq_none (Nat.le_of_not_lt hc)] at hk
      cases hk
    have hd : ops.drop k = .dtor i :: ops.drop (k + 1) := by
      rw [List.drop_eq_getElem_cons hlt]
      rw [List.getElem?_eq_getElem hlt, Option.some.injEq] at hk
      rw [hk]
    have e : run World.init ops
        = run (step (run World.init (ops.take k)) (.dtor i)) (ops.drop (k + 1)) := by
      conv_lhs => rw [← List.take_append_drop k ops, run_append, hd]
      rfl
    obtain ⟨l, hl⟩ := run_unrefs (step (run World.init (ops.take k)) (.dtor i))
      (ops.drop (k + 1))
    rw [e, hl]
    exact List.mem_append_left _ (dtor_unrefs_owned hown)

theorem exclusive_ownership_of_admissible_program_witness :
    admissible World.init sample_program = true ∧
    (run World.init (sample_program.take 4)).owns 0 1 ∧
    (run World.init sample_program).unrefs = [1, 2] ∧
    (run World.init (sample_program.take 4)).exclusive ∧
    (run World.init sample_program).unrefs.count 1 = 1 :=
  have h : admissible World.init sample_program = true := by decide
  have hown : (run World.init (sample_program.take 7)).owns 0 1 := ⟨by decide, by decide⟩
  ⟨h, ⟨by decide, by decide⟩, by decide,
    (exclusive_ownership_of_admissible_program sample_program h).1 4,
    (exclusive_ownership_of_admissible_program sample_program h).2.2 7 0 1 (by decide) hown⟩

end sdbusplus.slot

/-! ## Path operations of `string_path_wrapper` -/

namespace sdbusplus.message.details

theorem split_final_separator_none (s : List Char) (hs : '/' ∉ s) :
    split_final_separator s = none := by
  induction s with
  | nil => rfl
  | cons c cs ih =>
    have hc : ¬ c = '/' := fun e => hs (e ▸ List.mem_cons_self c cs)
    have hcs : '/' ∉ cs := fun h => hs (List.mem_cons_of_mem c h)
    simp [split_final_separator, ih hcs, hc]

theorem split_final_separator_append (p s : List Char) (hs : '/' ∉ s) :
    split_final_separator (p ++ '/' :: s) = some (p, s) := by
  induction p with
  | nil => simp [split_final_separator, split_final_separator_none s hs]
  | cons c cs ih => simp [split_final_separator, ih]

theorem data_append_separator (p s : std.string) :
    (p ++ "/" ++ s).data = p.data ++ '/' :: s.data := by
  simp [String.data_append]

/-- C11: for every object path `p` that is not empty and does not end with a
separator and every segment `s` that is not empty and holds no `'/'`: the
path-append `p / s` has the text `p + "/" + s`, `(p / s).filename()` is `s`,
`(p / s).parent_path()` is `p`, and `p /= s` leaves `p` equal to `p / s`. -/
theorem path_append_filename_parent_path (p : string_path_wrapper) (s : std.string)
    (_hp : p.str ≠ "") (hend : p.str.data.getLast? ≠ some '/')
    (_hs : s ≠ "") (hsep : '/' ∉ s.data) :
    (p.operator_div s).str = p.str ++ "/" ++ s ∧
    (p.operator_div s).filename = s ∧
    (p.operator_div s).parent_path = p ∧
    p.operator_div_assign s = p.operator_div s := by
  have e : p.operator_div s = { str := p.str ++ "/" ++ s } := by
    unfold string_path_wrapper.operator_div
    rw [if_neg hend]
  refine ⟨by rw [e], ?_, ?_, rfl⟩
  · rw [e]
    unfold string_path_wrapper.filename
    simp only [data_append_separator, split_final_separator_append _ _ hsep]
  · rw [e]
    unfold string_path_wrapper.parent_path
    simp only [data_append_separator, split_final_separator_append _ _ hsep]

theorem path_append_filename_parent_path_witness :
    (string_path_wrapper.operator_div { str := "/foo" } "bar").str = "/foo/bar" ∧
    (string_path_wrapper.operator_div { str := "/foo" } "bar").filename = "bar" ∧
    (string_path_wrapper.operator_div { str := "/foo" } "bar").parent_path = { str := "/foo" } ∧
    string_path_wrapper.operator_div_assign { str := "/foo" } "bar"
      = string_path_wrapper.operator_div { str := "/foo" } "bar" ∧
    string_path_wrapper.filename { str := "/foo/bar" } = "bar" ∧
    string_path_wrapper.parent_path { str := "/foo/bar" } = { str := "/foo" } :=
  have t := path_append_filename_parent_path { str := "/foo" } "bar" (by decide) (by decide)
    (by decide) (by decide)
  ⟨t.1, t.2.1, t.2.2.1, t.2.2.2, by decide, by decide⟩

end sdbusplus.message.details

/-! ## Construction and conversion of the wrappers, file descriptors -/

namespace sdbusplus.message.details

/-- C12: for every string `s` and both wrapper kinds, a wrapper constructed from `s`
(by copy or from a transient string) converts back to exactly `s` through the
read-only conversion and through the ownership-transferring conversion; the
read-only conversion leaves the wrapper as it was; a default-constructed
wrapper converts to the empty string. -/
theorem wrapper_conversion_returns_text (s : std.string) (w : string_wrapper)
    (p : string_path_wrapper) :
    ((string_wrapper.ctor_copy s).to_const_string.1 = s ∧
      (string_wrapper.ctor_move s).to_const_string.1 = s ∧
      (string_wrapper.ctor_copy s).to_rvalue_string = s ∧
      (string_wrapper.ctor_move s).to_rvalue_string = s ∧
      w.to_const_string.2 = w ∧
      string_wrapper.default_ctor.to_const_string.1 = "" ∧
      string_wrapper.default_ctor.to_rvalue_string = "") ∧
    ((string_path_wrapper.ctor_copy s).to_const_string.1 = s ∧
      (string_path_wrapper.ctor_move s).to_const_string.1 = s ∧
      (string_path_wrapper.ctor_copy s).to_rvalue_string = s ∧
      (string_path_wrapper.ctor_move s).to_rvalue_string = s ∧
      p.to_const_string.2 = p ∧
      string_path_wrapper.default_ctor.to_const_string.1 = "" ∧
      string_path_wrapper.default_ctor.to_rvalue_string = "") :=
  ⟨⟨rfl, rfl, rfl, rfl, rfl, rfl, rfl⟩, ⟨rfl, rfl, rfl, rfl, rfl, rfl, rfl⟩⟩

/-- C13: for every integer descriptor `n`, converting `n` to a file-descriptor value
and back to a plain integer gives `n`; construction, conversion and destruction
call `close` on no descriptor, and the conversion leaves the value as it was. -/
theorem unix_fd_carries_integer (n : Int) :
    (unix_fd_type.ctor n).1.toInt.1 = n ∧
    (unix_fd_type.ctor n).2 = [] ∧
    (unix_fd_type.ctor n).1.toInt.2.2 = [] ∧
    (unix_fd_type.ctor n).1.toInt.2.1 = (unix_fd_type.ctor n).1 ∧
    (unix_fd_type.ctor n).1.dtor = [] :=
  ⟨rfl, rfl, rfl, rfl, rfl⟩

end sdbusplus.message.details

/-! ## Move assignment and assignment from a raw handle -/

namespace sdbusplus.slot

theorem move_assign_unrefs (b a : slot) :
    (slot.move_assign b a).2.2 = if b.get ≠ nullptr then [b.get] else [] :=
  rfl

theorem assign_unrefs (self : slot) (r : slotp_t) :
    (self.assign r).2.2 = if self.get ≠ nullptr then [self.get] else [] :=
  rfl

theorem not_mem_unrefs_of_ne {old x : slotp_t} (h : x ≠ old ∨ old = nullptr) :
    x ∉ (if old ≠ nullptr then [old] else []) := by
  by_cases ho : old = nullptr
  · simp [ho]
  · rw [if_pos ho, List.mem_singleton]
    rcases h with h | h
    · exact h
    · exact absurd h ho

/-- C14, as stated, fails: after `slot a(raw 5); slot b(raw 5);`, built from two raw
copies of one pointer, `b = std::move(a)` calls `sd_bus_slot_unref` on 5, which
is the resource of `a`, and leaves `b` holding it. -/
theorem move_assign_releases_shared_resource :
    (slot.move_assign { _slot := { ptr := 5 } } { _slot := { ptr := 5 } }).2.2 = [5] ∧
    (slot.move_assign { _slot := { ptr := 5 } } { _slot := { ptr := 5 } }).1.get = 5 ∧
    (run World.init [.ctor 5, .ctor 5]).obj 0 = some { _slot := { ptr := 5 } } ∧
    (run World.init [.ctor 5, .ctor 5]).obj 1 = some { _slot := { ptr := 5 } } ∧
    (run World.init [.ctor 5, .ctor 5, .move_assign 1 0]).unrefs = [5] ∧
    (run World.init [.ctor 5, .ctor 5, .move_assign 1 0]).obj 1
      = some { _slot := { ptr := 5 } } := by
  refine ⟨by decide, by decide, by decide, by decide, by decide, by decide⟩

/-- C14, amended: for every pair of distinct handles `a` and `b`, move-assigning `a`
into `b` issues exactly one `sd_bus_slot_unref` call, on the resource `b` owned,
when `b` was not empty, and none when `b` was empty; afterwards `b` holds the
resource `a` held and `a` is empty; when `b` did not own the same resource as
`a`, the resource of `a` is not among the calls. -/
theorem move_assign_releases_target_only (b a : slot) :
    (b.get ≠ nullptr → (slot.move_assign b a).2.2 = [b.get]) ∧
    (b.get = nullptr → (slot.move_assign b a).2.2 = []) ∧
    (slot.move_assign b a).1.get = a.get ∧
    (slot.move_assign b a).2.1.toBool = false ∧
    (a.get ≠ b.get ∨ b.get = nullptr → a.get ∉ (slot.move_assign b a).2.2) := by
  refine ⟨fun hb => ?_, fun hb => ?_, rfl, rfl, fun h => ?_⟩
  · rw [move_assign_unrefs, if_pos hb]
  · rw [move_assign_unrefs, if_neg (not_not.mpr hb)]
  · rw [move_assign_unrefs]
    exact not_mem_unrefs_of_ne h

theorem move_assign_releases_target_only_witness :
    (slot.move_assign { _slot := { ptr := 3 } } { _slot := { ptr := 7 } }).2.2 = [3] ∧
    (slot.move_assign slot.default_ctor { _slot := { ptr := 7 } }).2.2 = [] ∧
    (slot.move_assign { _slot := { ptr := 3 } } { _slot := { ptr := 7 } }).1.get = 7 ∧
    (slot.move_assign { _slot := { ptr := 3 } } { _slot := { ptr := 7 } }).2.1.toBool = false ∧
    (7 : slotp_t) ∉ (slot.move_assign { _slot := { ptr := 3 } } { _slot := { ptr := 7 } }).2.2 ∧
    (slot.move_assign { _slot := { ptr := 5 } } { _slot := { ptr := 5 } }).1.get = 5 ∧
    (slot.move_assign { _slot := { ptr := 5 } } { _slot := { ptr := 5 } }).2.1.toBool = false :=
  have t := move_assign_releases_target_only { _slot := { ptr := 3 } } { _slot := { ptr := 7 } }
  have u := move_assign_releases_target_only slot.default_ctor { _slot := { ptr := 7 } }
  have v := move_assign_releases_target_only { _slot := { ptr := 5 } } { _slot := { ptr := 5 } }
  ⟨t.1 (by decide), u.2.1 rfl, t.2.2.1, t.2.2.2.1, t.2.2.2.2 (Or.inl (by decide)),
    v.2.2.1, v.2.2.2.1⟩

/-- C15, as stated, fails: a handle that owns resource 5 and is assigned the raw
handle 5 calls `sd_bus_slot_unref` on 5 and is left holding 5. -/
theorem assign_same_resource_releases_it :
    (slot.assign { _slot := { ptr := 5 } } 5).2.2 = [5] ∧
    (slot.assign { _slot := { ptr := 5 } } 5).1.get = 5 ∧
    (slot.assign { _slot := { ptr := 5 } } 5).1.get
      ∈ (slot.assign { _slot := { ptr := 5 } } 5).2.2 ∧
    (run World.init [.ctor 5, .assign 0 5, .dtor 0]).unrefs = [5, 5] := by
  refine ⟨by decide, by decide, by decide, by decide⟩

/-- C15, amended: for every handle state and every raw resource `r`, assignment from
the raw handle `r` issues a `sd_bus_slot_unref` call only for the resource owned
before (one call when there was one, none when the handle was empty) and leaves
the handle holding `r`; when `r` is not the resource the handle already owns,
the handle is not left holding a resource on which the call was just issued. -/
theorem assign_releases_previous_only (self : slot) (r : slotp_t) :
    (self.get ≠ nullptr → (self.assign r).2.2 = [self.get]) ∧
    (self.get = nullptr → (self.assign r).2.2 = []) ∧
    (self.assign r).1.get = r ∧
    (r ≠ self.get ∨ self.get = nullptr → (self.assign r).1.get ∉ (self.assign r).2.2) := by
  refine ⟨fun hb => ?_, fun hb => ?_, rfl, fun h => ?_⟩
  · rw [assign_unrefs, if_pos hb]
  · rw [assign_unrefs, if_neg (not_not.mpr hb)]
  · rw [assign_unrefs]
    exact not_mem_unrefs_of_ne h

theorem assign_releases_previous_only_witness :
    (slot.assign { _slot := { ptr := 3 } } 7).2.2 = [3] ∧
    (slot.assign slot.default_ctor 7).2.2 = [] ∧
    (slot.assign { _slot := { ptr := 3 } } 7).1.get = 7 ∧
    (slot.assign { _slot := { ptr := 3 } } 7).1.get
      ∉ (slot.assign { _slot := { ptr := 3 } } 7).2.2 :=
  have t := assign_releases_previous_only { _slot := { ptr := 3 } } 7
  have u := assign_releases_previous_only slot.default_ctor 7
  ⟨t.1 (by decide), u.2.1 rfl, t.2.2.1, t.2.2.2 (Or.inl (by decide))⟩

end sdbusplus.slot

/-! ## The order of the wrappers -/

namespace std

theorem string_operator_lt_irrefl (a : string) : string.operator_lt a a = false := by
  rw [← Bool.not_eq_true, string_operator_lt_iff]
  exact lt_irrefl a

theorem string_operator_lt_trans (a b c : string) (hab : string.operator_lt a b = true)
    (hbc : string.operator_lt b c = true) : string.operator_lt a c = true := by
  rw [string_operator_lt_iff] at hab hbc ⊢
  exact lt_trans hab hbc

/-- Exactly one of `a < b`, `a == b`, `b < a` holds for `std::string`. -/
theorem string_operator_trichotomy (a b : string) :
    (string.operator_lt a b = true ∧ string.operator_eq a b = false ∧
      string.operator_lt b a = false) ∨
    (string.operator_lt a b = false ∧ string.operator_eq a b = true ∧
      string.operator_lt b a = false) ∨
    (string.operator_lt a b = false ∧ string.operator_eq a b = false ∧
      string.operator_lt b a = true) := by
  have hlt : ∀ x y : string, string.operator_lt x y = false ↔ ¬ x < y := fun x y => by
    rw [← Bool.not_eq_true, string_operator_lt_iff]
  have heq : string.operator_eq a b = false ↔ ¬ a = b := by
    rw [← Bool.not_eq_true, string_operator_eq_iff]
  rcases lt_trichotomy a b with h | h | h
  · exact Or.inl ⟨(string_operator_lt_iff a b).mpr h, heq.mpr (ne_of_lt h),
      (hlt b a).mpr (not_lt_of_lt h)⟩
  · exact Or.inr (Or.inl ⟨(hlt a b).mpr (h ▸ lt_irrefl a), (string_operator_eq_iff a b).mpr h,
      (hlt b a).mpr (h ▸ lt_irrefl a)⟩)
  · exact Or.inr (Or.inr ⟨(hlt a b).mpr (not_lt_of_lt h), heq.mpr (ne_of_gt h),
      (string_operator_lt_iff b a).mpr h⟩)

end std

namespace sdbusplus.message.details

/-- C16: for both wrapper kinds, `operator<` is a strict total order compatible with
`operator==`: for all wrappers `a`, `b`, `c` of one kind, `a < a` is false,
`a < b` and `b < c` give `a < c`, and exactly one of `a < b`, `a == b`, `b < a`
holds. -/
theorem wrapper_less_is_strict_total_order (a b c : string_wrapper)
    (x y z : string_path_wrapper) :
    (a.operator_lt a = false ∧
      (a.operator_lt b = true → b.operator_lt c = true → a.operator_lt c = true) ∧
      ((a.operator_lt b = true ∧ a.operator_eq b = false ∧ b.operator_lt a = false) ∨
        (a.operator_lt b = false ∧ a.operator_eq b = true ∧ b.operator_lt a = false) ∨
        (a.operator_lt b = false ∧ a.operator_eq b = false ∧ b.operator_lt a = true))) ∧
    (x.operator_lt x = false ∧
      (x.operator_lt y = true → y.operator_lt z = true → x.operator_lt z = true) ∧
      ((x.operator_lt y = true ∧ x.operator_eq y = false ∧ y.operator_lt x = false) ∨
        (x.operator_lt y = false ∧ x.operator_eq y = true ∧ y.operator_lt x = false) ∨
        (x.operator_lt y = false ∧ x.operator_eq y = false ∧ y.operator_lt x = true))) :=
  ⟨⟨std.string_operator_lt_irrefl a.str, std.string_operator_lt_trans a.str b.str c.str,
      std.string_operator_trichotomy a.str b.str⟩,
    ⟨std.string_operator_lt_irrefl x.str, std.string_operator_lt_trans x.str y.str z.str,
      std.string_operator_trichotomy x.str y.str⟩⟩

theorem wrapper_less_is_strict_total_order_witness :
    string_wrapper.operator_lt { str := "a" } { str := "b" } = true ∧
    string_wrapper.operator_lt { str := "b" } { str := "c" } = true ∧
    string_wrapper.operator_lt { str := "a" } { str := "c" } = true ∧
    string_path_wrapper.operator_lt { str := "/a" } { str := "/a/b" } = true ∧
    string_path_wrapper.operator_lt { str := "/a/b" } { str := "/b" } = true ∧
    string_path_wrapper.operator_lt { str := "/a" } { str := "/b" } = true :=
  have t := wrapper_less_is_strict_total_order { str := "a" } { str := "b" } { str := "c" }
    { str := "/a" } { str := "/a/b" } { str := "/b" }
  have h1 : string_wrapper.operator_lt { str := "a" } { str := "b" } = true := by decide
  have h2 : string_wrapper.operator_lt { str := "b" } { str := "c" } = true := by decide
  have h3 : string_path_wrapper.operator_lt { str := "/a" } { str := "/a/b" } = true := by
    decide
  have h4 : string_path_wrapper.operator_lt { str := "/a/b" } { str := "/b" } = true := by
    decide
  ⟨h1, h2, t.1.2.1 h1 h2, h3, h4, t.2.2.1 h3 h4⟩

end sdbusplus.message.details
